import Mathlib

/-!
Verification of the `js-sandbox-mcp-server` execution-policy core
(`src/index.ts`) against its natural-language specification.

The TypeScript core is shallowly embedded below:

* `JSVal` models JavaScript values exchanged with the sandbox (the cases the
  claims need), and `jsString` models the JS `String(x)` coercion used by the
  console hook.
* `McpError` / `ErrorCode` model the MCP SDK's typed error (whose `message`
  property is the string `"MCP error <code>: <message>"`).
* `validateCode` embeds `JSSandbox.validateCode`: an acorn parse (represented
  by an abstract `Parser` argument, since acorn is an external library)
  followed by the substring scan over `FORBIDDEN_PATTERNS`; both failure modes
  are wrapped into one `McpError` with code `InvalidRequest` by the
  surrounding try/catch, prefixed with "Erreur de validation du code: ".
* `createSandbox` embeds `JSSandbox.createSandbox`: the `NodeVM` option
  record literally as written in the source (note: the `memory` parameter is
  received but never placed in the record).
* `executeCode` embeds `JSSandbox.executeCode`: defaulting of
  `timeout`/`memory`, validation, sandbox construction, the `console.log`
  hook appending to a fresh per-call buffer, delegation to the vm2 engine
  (abstract `Engine` argument), and the catch-all that rewraps every caught
  error as an `InternalError` with prefix "Erreur d\x27exécution: ".
  Wall-clock and heap telemetry are inputs (`elapsedMs`, `heapUsed`).
* `handleCallTool` embeds the `CallToolRequestSchema` handler of
  `JSSandboxServer.setupHandlers`: tool-name dispatch, the
  `typeof args.code !== "string"` guard, and the
  `typeof args.timeout === "number" ? args.timeout : undefined` extraction.
-/

namespace JSSandboxMCP

/-- A JavaScript value, as far as the embedded fragments need one. -/
inductive JSVal where
  | vStr (s : String)
  | vNum (n : Int)
  | vBool (b : Bool)
  | vNull
deriving DecidableEq, Repr

/-- JS `String(x)` coercion, used by the console hook
    (`args.map(arg => String(arg)).join(' ')`). -/
def jsString : JSVal → String
  | .vStr s => s
  | .vNum n => toString n
  | .vBool true => "true"
  | .vBool false => "false"
  | .vNull => "null"

/-- MCP SDK error codes used by the server. -/
inductive ErrorCode where
  | invalidRequest
  | methodNotFound
  | internalError
deriving DecidableEq, Repr

/-- The JSON-RPC numeric value of each code (from the MCP SDK). -/
def ErrorCode.num : ErrorCode → Int
  | .invalidRequest => -32600
  | .methodNotFound => -32601
  | .internalError => -32603

/-- The MCP SDK's `McpError`. -/
structure McpError where
  code : ErrorCode
  message : String
deriving DecidableEq, Repr

/-- `McpError`'s constructor sets the JS `Error.message` property to
    `"MCP error <code>: <message>"`; this is what a later
    `error.message` read observes. -/
def McpError.fullMessage (e : McpError) : String :=
  "MCP error " ++ toString e.code.num ++ ": " ++ e.message

/-- `JSSandbox.DEFAULT_TIMEOUT = 5000`. -/
def DEFAULT_TIMEOUT : Int := 5000

/-- `JSSandbox.DEFAULT_MEMORY = 50 * 1024 * 1024`. -/
def DEFAULT_MEMORY : Int := 50 * 1024 * 1024

/-- `JSSandbox.FORBIDDEN_PATTERNS`, in source order. -/
def FORBIDDEN_PATTERNS : List String :=
  ["process", "require", "__dirname", "__filename", "global", "Buffer", "eval"]

/-- Embedding of JS `haystack.includes(needle)` at the character-list level:
    some tail of the haystack starts with the needle. -/
def listIncludes : List Char → List Char → Bool
  | [], pat => pat.isEmpty
  | c :: t, pat => pat.isPrefixOf (c :: t) || listIncludes t pat

/-- Embedding of JS `code.includes(pattern)`. -/
def strIncludes (s pat : String) : Bool :=
  listIncludes s.data pat.data

/-- Specification-side notion of "occurs as a literal substring". -/
def OccursIn (pat s : String) : Prop :=
  ∃ pre post : String, s = pre ++ pat ++ post

/-- The acorn `parse(code, { ecmaVersion: "latest" })` collaborator, abstract:
    either accepts the code or fails with the parser's message. -/
def Parser : Type := String → Except String Unit

/-- The first member of `FORBIDDEN_PATTERNS` (in source iteration order) that
    occurs in the code, mirroring the `for...of` loop that throws on first
    match. -/
def firstForbidden (code : String) : Option String :=
  FORBIDDEN_PATTERNS.find? (fun p => strIncludes code p)

/-- Embedding of `JSSandbox.validateCode`. Both the acorn parse failure and
    the forbidden-pattern `Error` are caught by the same `catch` and rewrapped
    as `McpError(ErrorCode.InvalidRequest, "Erreur de validation du code: " +
    error.message)`. -/
def validateCode (parse : Parser) (code : String) : Except McpError Unit :=
  match parse code with
  | .error msg =>
      .error ⟨.invalidRequest, "Erreur de validation du code: " ++ msg⟩
  | .ok _ =>
      match firstForbidden code with
      | some p =>
          .error ⟨.invalidRequest,
            "Erreur de validation du code: Usage interdit de \x27" ++ p ++ "\x27"⟩
      | none => .ok ()

/-- The `NodeVM` option record passed to the vm2 constructor. -/
structure NodeVMConfig where
  console : String
  sandbox : List String
  require : Bool
  timeout : Int
  wrapper : String
  eval : Bool
  wasm : Bool
deriving DecidableEq, Repr

/-- Embedding of `JSSandbox.createSandbox(timeout, memory)`. The record is
    exactly the object literal of the source; the `memory` parameter appears
    in the signature but in no field. -/
def createSandbox (timeout : Int) (memory : Int) : NodeVMConfig :=
  { console := "redirect"
    sandbox := []
    require := false
    timeout := timeout
    wrapper := "none"
    eval := false
    wasm := false }

/-- One sandbox run as observed by the host: either a produced value or a
    thrown error message, together with the ordered `console.log` events
    (each event being the argument list of one call) the run emitted. -/
inductive EngineOutcome where
  | ok (value : JSVal) (events : List (List JSVal))
  | thrown (message : String) (events : List (List JSVal))

/-- The vm2 evaluation engine collaborator, abstract: given the compiled
    script source and the `NodeVM` configuration, produce an outcome. -/
def Engine : Type := String → NodeVMConfig → EngineOutcome

/-- The `console.log` hook body:
    `consoleOutput.push(args.map(arg => String(arg)).join(' '))`. -/
def consoleLine (eventArgs : List JSVal) : String :=
  String.intercalate " " (eventArgs.map jsString)

/-- One push onto the per-execution `consoleOutput` buffer. -/
def pushConsole (buf : List String) (eventArgs : List JSVal) : List String :=
  buf ++ [consoleLine eventArgs]

/-- The buffer after the hook has fired once per event, in emission order,
    starting from this execution's fresh empty buffer. -/
def collectConsole (events : List (List JSVal)) : List String :=
  events.foldl pushConsole []

/-- The `ExecuteCodeArgs` interface of the source. -/
structure ExecuteCodeArgs where
  code : String
  timeout : Option Int
  memory : Option Int
deriving DecidableEq, Repr

/-- The success shape returned by `executeCode`. -/
structure ExecResult where
  result : JSVal
  console : List String
  executionTime : Int
  memoryUsage : Int
deriving DecidableEq, Repr

/-- Embedding of `JSSandbox.executeCode`. The whole body sits in one
    try/catch whose `catch` rethrows every caught error (the `McpError` from
    validation included) as
    `McpError(ErrorCode.InternalError, "Erreur d\x27exécution: " + error.message)`.
    `elapsedMs` and `heapUsed` stand for the `process.hrtime` and
    `process.memoryUsage().heapUsed` telemetry readings. -/
def executeCode (parse : Parser) (engine : Engine)
    (elapsedMs heapUsed : Int) (args : ExecuteCodeArgs) :
    Except McpError ExecResult :=
  let timeout := args.timeout.getD DEFAULT_TIMEOUT
  let memory := args.memory.getD DEFAULT_MEMORY
  match validateCode parse args.code with
  | .error e =>
      .error ⟨.internalError, "Erreur d\x27exécution: " ++ e.fullMessage⟩
  | .ok _ =>
      let vm := createSandbox timeout memory
      match engine args.code vm with
      | .ok value events =>
          .ok { result := value
                console := collectConsole events
                executionTime := elapsedMs
                memoryUsage := heapUsed }
      | .thrown msg _ =>
          .error ⟨.internalError, "Erreur d\x27exécution: " ++ msg⟩

/-- The raw `request.params.arguments` object: each field either absent or
    some JS value. -/
structure RawArgs where
  code : Option JSVal
  timeout : Option JSVal
  memory : Option JSVal
deriving DecidableEq, Repr

/-- `typeof v === "number" ? v : undefined` applied to an optional field. -/
def asNumber : Option JSVal → Option Int
  | some (.vNum n) => some n
  | _ => none

/-- The handler's message for a missing or non-string `code` argument. -/
def codeRequiredMessage : String :=
  "Le paramètre \x22code\x22 est requis et doit être une chaîne de caractères"

/-- Embedding of the `CallToolRequestSchema` handler of
    `JSSandboxServer.setupHandlers`: unknown tool → `MethodNotFound`; absent
    arguments object or non-string `code` → `InvalidRequest`; otherwise build
    `ExecuteCodeArgs` (non-number `timeout`/`memory` become `undefined`) and
    delegate to `executeCode`. -/
def handleCallTool (parse : Parser) (engine : Engine)
    (elapsedMs heapUsed : Int) (toolName : String) (args : Option RawArgs) :
    Except McpError ExecResult :=
  if toolName ≠ "execute_js" then
    .error ⟨.methodNotFound, "Outil inconnu: " ++ toolName⟩
  else
    match args with
    | none => .error ⟨.invalidRequest, codeRequiredMessage⟩
    | some a =>
        match a.code with
        | some (.vStr c) =>
            executeCode parse engine elapsedMs heapUsed
              { code := c
                timeout := asNumber a.timeout
                memory := asNumber a.memory }
        | _ => .error ⟨.invalidRequest, codeRequiredMessage⟩

/-- A parser that accepts every input; used to instantiate the abstract acorn
    collaborator at concrete inputs that acorn does accept (identifier
    expressions, arithmetic, the empty program). -/
def parseOk : Parser := fun _ => .ok ()

/-- An engine returning a constant value with no console output. -/
def engineConst (v : JSVal) : Engine := fun _ _ => .ok v []

/-- An engine that reports the timeout field of the configuration it was
    handed, exposing what the sandbox was actually configured with. -/
def engineSpyTimeout : Engine := fun _ cfg => .ok (.vNum cfg.timeout) []

/-- An engine emitting `console.log("a")` then `console.log("b")`. -/
def engineEmitAB : Engine :=
  fun _ _ => .ok .vNull [[.vStr "a"], [.vStr "b"]]

/-! ### Helper lemmas -/

/-- `listIncludes` decides exactly the substring (infix) relation. -/
theorem listIncludes_iff (pat l : List Char) :
    listIncludes l pat = true ↔ ∃ l₁ l₂ : List Char, l = l₁ ++ pat ++ l₂ := by
  induction l with
  | nil =>
      constructor
      · intro h
        have hp : pat = [] := by
          simpa [listIncludes, List.isEmpty_iff] using h
        exact ⟨[], [], by simp [hp]⟩
      · rintro ⟨l₁, l₂, h⟩
        have h' := h.symm
        simp [List.append_eq_nil] at h'
        simp [listIncludes, h'.2.1]
  | cons c t ih =>
      constructor
      · intro h
        have h' : pat.isPrefixOf (c :: t) = true ∨ listIncludes t pat = true := by
          simpa [listIncludes, Bool.or_eq_true] using h
        rcases h' with h1 | h2
        · rcases List.isPrefixOf_iff_prefix.mp h1 with ⟨r, hr⟩
          exact ⟨[], r, by rw [List.nil_append]; exact hr.symm⟩
        · rcases ih.mp h2 with ⟨l₁, l₂, hl⟩
          exact ⟨c :: l₁, l₂, by simp [hl]⟩
      · rintro ⟨l₁, l₂, h⟩
        cases l₁ with
        | nil =>
            have hpre : pat <+: c :: t := ⟨l₂, by simpa using h.symm⟩
            simp [listIncludes, List.isPrefixOf_iff_prefix.mpr hpre]
        | cons a l₁ =>
            have hc : c = a ∧ t = l₁ ++ pat ++ l₂ := by simpa using h
            simp [listIncludes, ih.mpr ⟨l₁, l₂, hc.2⟩]

/-- The embedded `code.includes(pattern)` check decides exactly the
    specification's literal-substring occurrence. -/
theorem strIncludes_iff (s pat : String) :
    strIncludes s pat = true ↔ OccursIn pat s := by
  constructor
  · intro h
    rcases (listIncludes_iff pat.data s.data).mp h with ⟨l₁, l₂, hl⟩
    refine ⟨⟨l₁⟩, ⟨l₂⟩, ?_⟩
    apply String.ext
    simpa [String.data_append] using hl
  · rintro ⟨pre, post, rfl⟩
    apply (listIncludes_iff pat.data _).mpr
    exact ⟨pre.data, post.data, by simp [String.data_append]⟩

/-- A successful `find?` splits the list: the found element satisfies the
    predicate and everything iterated before it does not. -/
theorem find?_eq_some_split {α : Type} (f : α → Bool) (l : List α) (a : α)
    (h : l.find? f = some a) :
    f a = true ∧ ∃ l₁ l₂, l = l₁ ++ a :: l₂ ∧ ∀ x ∈ l₁, f x = false := by
  induction l with
  | nil => simp [List.find?] at h
  | cons b t ih =>
      by_cases hb : f b = true
      · have hba : b = a := by
          simpa [List.find?_cons_of_pos _ hb] using h
        subst hba
        exact ⟨hb, [], t, rfl, by simp⟩
      · have hb' : f b = false := by simpa using hb
        have h' : t.find? f = some a := by
          simpa [List.find?_cons_of_neg _ hb] using h
        rcases ih h' with ⟨hf, l₁, l₂, hsplit, hall⟩
        refine ⟨hf, b :: l₁, l₂, by simp [hsplit], ?_⟩
        intro x hx
        rcases List.mem_cons.mp hx with rfl | hx'
        · exact hb'
        · exact hall x hx'

/-- Folding the console hook over the emitted events from the fresh empty
    buffer yields exactly the event lines, in emission order. -/
theorem collectConsole_eq_map (events : List (List JSVal)) :
    collectConsole events = events.map consoleLine := by
  have h : ∀ (evs : List (List JSVal)) (acc : List String),
      evs.foldl pushConsole acc = acc ++ evs.map consoleLine := by
    intro evs
    induction evs with
    | nil => intro acc; simp
    | cons e t ih => intro acc; simp [pushConsole, ih]
  simpa using h events []

/-! ### Claims -/

/-- C6: `validateCode` is a pure function that succeeds exactly when the code
    parses and no member of `FORBIDDEN_PATTERNS` occurs in the raw source as
    a literal substring; a parse failure yields the error carrying the
    parser's message; otherwise it fails on the first pattern, in the fixed
    list order, that occurs. -/
theorem c6_validate_characterization (parse : Parser) (code : String) :
    (validateCode parse code = .ok () ↔
      (∃ u, parse code = .ok u) ∧
        ∀ p ∈ FORBIDDEN_PATTERNS, ¬ OccursIn p code) ∧
    (∀ msg, parse code = .error msg →
      validateCode parse code =
        .error ⟨.invalidRequest, "Erreur de validation du code: " ++ msg⟩) ∧
    (∀ u p, parse code = .ok u → firstForbidden code = some p →
      OccursIn p code ∧
      (∃ l₁ l₂, FORBIDDEN_PATTERNS = l₁ ++ p :: l₂ ∧
        ∀ q ∈ l₁, ¬ OccursIn q code) ∧
      validateCode parse code =
        .error ⟨.invalidRequest,
          "Erreur de validation du code: Usage interdit de \x27" ++ p ++ "\x27"⟩) := by
  refine ⟨?_, ?_, ?_⟩
  · cases hp : parse code with
    | error msg => simp [validateCode, hp]
    | ok u =>
        cases hf : firstForbidden code with
        | none =>
            simp only [validateCode, hp, hf]
            constructor
            · intro _
              refine ⟨⟨(), trivial⟩, ?_⟩
              intro p hpmem hocc
              exact List.find?_eq_none.mp hf p hpmem
                ((strIncludes_iff code p).mpr hocc)
            · intro _; trivial
        | some p =>
            simp only [validateCode, hp, hf]
            constructor
            · intro h; exact absurd h (by simp)
            · rintro ⟨-, hall⟩
              rcases find?_eq_some_split _ _ _ hf with ⟨hsp, l₁, l₂, hsplit, -⟩
              have hpmem : p ∈ FORBIDDEN_PATTERNS := by
                rw [hsplit]
                exact List.mem_append_right _ (List.mem_cons_self _ _)
              exact absurd ((strIncludes_iff code p).mp hsp) (hall p hpmem)
  · intro msg hmsg
    simp [validateCode, hmsg]
  · intro u p hp hf
    rcases find?_eq_some_split _ _ _ hf with ⟨hsp, l₁, l₂, hsplit, hall⟩
    refine ⟨(strIncludes_iff code p).mp hsp, ⟨l₁, l₂, hsplit, ?_⟩, ?_⟩
    · intro q hq hocc
      have hq' := hall q hq
      rw [(strIncludes_iff code q).mpr hocc] at hq'
      exact Bool.noConfusion hq'
    · simp [validateCode, hp, hf]

/-- C6 witness: `"evaluate"` parses (under a parser accepting it, as acorn
    does) and contains `"eval"` — the last pattern, none of the earlier six
    occurring — so validation rejects it naming `eval`. -/
theorem c6_validate_characterization_witness :
    OccursIn "eval" "evaluate" ∧
    (∃ l₁ l₂, FORBIDDEN_PATTERNS = l₁ ++ "eval" :: l₂ ∧
      ∀ q ∈ l₁, ¬ OccursIn q "evaluate") ∧
    validateCode parseOk "evaluate" =
      .error ⟨.invalidRequest,
        "Erreur de validation du code: Usage interdit de \x27" ++ "eval" ++ "\x27"⟩ :=
  (c6_validate_characterization parseOk "evaluate").2.2 () "eval" rfl rfl

/-- C5: when validation fails, the produced error does not depend on the
    engine (the sandbox is never created or invoked) and no success outcome
    is ever produced: validation strictly precedes execution. -/
theorem c5_validation_gate (parse : Parser) (e : McpError)
    (elapsedMs heapUsed : Int) (args : ExecuteCodeArgs)
    (h : validateCode parse args.code = .error e) :
    ∀ engine₁ engine₂ : Engine,
      executeCode parse engine₁ elapsedMs heapUsed args =
        executeCode parse engine₂ elapsedMs heapUsed args ∧
      executeCode parse engine₁ elapsedMs heapUsed args =
        .error ⟨.internalError, "Erreur d\x27exécution: " ++ e.fullMessage⟩ ∧
      ∀ r : ExecResult,
        executeCode parse engine₁ elapsedMs heapUsed args ≠ .ok r := by
  intro engine₁ engine₂
  refine ⟨?_, ?_, ?_⟩ <;> simp [executeCode, h]

/-- C5 witness: for the forbidden code `"eval"`, two very different engines
    produce the same (error) outcome — the engine is never consulted. -/
theorem c5_validation_gate_witness :
    executeCode parseOk (engineConst .vNull) 0 0 ⟨"eval", none, none⟩ =
      executeCode parseOk engineEmitAB 0 0 ⟨"eval", none, none⟩ :=
  (c5_validation_gate parseOk
      ⟨.invalidRequest,
        "Erreur de validation du code: Usage interdit de \x27eval\x27"⟩
      0 0 ⟨"eval", none, none⟩ rfl (engineConst .vNull) engineEmitAB).1

/-- C7: `executeCode` is total: every run returns either a success result or
    exactly one typed `McpError` with code `InternalError` prefixed
    "Erreur d\x27exécution: " and carrying the underlying message — no fault
    crosses the boundary unhandled. -/
theorem c7_error_translation_total (parse : Parser) (engine : Engine)
    (elapsedMs heapUsed : Int) (args : ExecuteCodeArgs) :
    (∃ r, executeCode parse engine elapsedMs heapUsed args = .ok r) ∨
    (∃ msg, executeCode parse engine elapsedMs heapUsed args =
      .error ⟨.internalError, "Erreur d\x27exécution: " ++ msg⟩) := by
  cases hv : validateCode parse args.code with
  | error e =>
      exact Or.inr ⟨e.fullMessage, by simp [executeCode, hv]⟩
  | ok u =>
      cases he : engine args.code
          (createSandbox (args.timeout.getD DEFAULT_TIMEOUT)
            (args.memory.getD DEFAULT_MEMORY)) with
      | ok v evs =>
          exact Or.inl ⟨{ result := v
                          console := collectConsole evs
                          executionTime := elapsedMs
                          memoryUsage := heapUsed },
            by simp [executeCode, hv, he]⟩
      | thrown m evs =>
          exact Or.inr ⟨m, by simp [executeCode, hv, he]⟩

/-- C9: on a successful run the returned `console` field is exactly the
    emitted events mapped to their joined lines, in emission order (FIFO),
    collected into this call's own fresh buffer. -/
theorem c9_console_order (parse : Parser) (engine : Engine)
    (elapsedMs heapUsed : Int) (args : ExecuteCodeArgs)
    (value : JSVal) (events : List (List JSVal))
    (hv : validateCode parse args.code = .ok ())
    (he : engine args.code
        (createSandbox (args.timeout.getD DEFAULT_TIMEOUT)
          (args.memory.getD DEFAULT_MEMORY)) = .ok value events) :
    executeCode parse engine elapsedMs heapUsed args =
      .ok { result := value
            console := events.map consoleLine
            executionTime := elapsedMs
            memoryUsage := heapUsed } := by
  simp [executeCode, hv, he, collectConsole_eq_map]

/-- C9 witness: an engine emitting `"a"` then `"b"` yields
    `console = ["a", "b"]`. -/
theorem c9_console_order_witness :
    executeCode parseOk engineEmitAB 3 7 ⟨"1 + 1", none, none⟩ =
      .ok { result := .vNull, console := ["a", "b"],
            executionTime := 3, memoryUsage := 7 } :=
  c9_console_order parseOk engineEmitAB 3 7 ⟨"1 + 1", none, none⟩
    .vNull [[.vStr "a"], [.vStr "b"]] rfl rfl

/-- C10: a `timeout`/`memory` argument that is present but not a number is
    treated by the handler exactly as an absent one — the request is never
    rejected for it — and the absent fields then default to 5000 ms and
    52428800 bytes inside `executeCode`. -/
theorem c10_non_number_args_default (parse : Parser) (engine : Engine)
    (elapsedMs heapUsed : Int) (c : String) (tv mv : JSVal)
    (ht : ∀ n : Int, tv ≠ .vNum n) (hm : ∀ n : Int, mv ≠ .vNum n) :
    handleCallTool parse engine elapsedMs heapUsed "execute_js"
        (some ⟨some (.vStr c), some tv, some mv⟩) =
      executeCode parse engine elapsedMs heapUsed ⟨c, none, none⟩ ∧
    (none : Option Int).getD DEFAULT_TIMEOUT = 5000 ∧
    (none : Option Int).getD DEFAULT_MEMORY = 52428800 := by
  have hT : asNumber (some tv) = none := by
    cases tv with
    | vNum n => exact absurd rfl (ht n)
    | vStr s => rfl
    | vBool b => rfl
    | vNull => rfl
  have hM : asNumber (some mv) = none := by
    cases mv with
    | vNum n => exact absurd rfl (hm n)
    | vStr s => rfl
    | vBool b => rfl
    | vNull => rfl
  refine ⟨?_, rfl, rfl⟩
  simp [handleCallTool, hT, hM]

/-- C10 witness: a string-valued `timeout` and a boolean `memory` are
    silently defaulted, not rejected. -/
theorem c10_non_number_args_default_witness :
    handleCallTool parseOk engineSpyTimeout 0 0 "execute_js"
        (some ⟨some (.vStr "1 + 1"), some (.vStr "soon"), some (.vBool true)⟩) =
      executeCode parseOk engineSpyTimeout 0 0 ⟨"1 + 1", none, none⟩ ∧
    (none : Option Int).getD DEFAULT_TIMEOUT = 5000 ∧
    (none : Option Int).getD DEFAULT_MEMORY = 52428800 :=
  c10_non_number_args_default parseOk engineSpyTimeout 0 0 "1 + 1"
    (.vStr "soon") (.vBool true)
    (fun _ h => JSVal.noConfusion h) (fun _ h => JSVal.noConfusion h)

/-- C1 (code bug): the forbidden-pattern request `code = "process"` — which
    `validateCode` rejects with an `McpError` of code `InvalidRequest` — is
    answered by the tool with `InternalError` (-32603) wrapping that
    validation message, because `executeCode`'s catch-all rewraps every
    caught error, its own validation `McpError` included. -/
theorem c1_validation_rejected_as_internal_error :
    handleCallTool parseOk (engineConst .vNull) 0 0 "execute_js"
        (some ⟨some (.vStr "process"), none, none⟩) =
      .error ⟨.internalError,
        "Erreur d\x27exécution: MCP error -32600: Erreur de validation du code: Usage interdit de \x27process\x27"⟩ := by
  rfl

/-- C2 (code bug): a request with `timeout = 50` (below the advertised
    minimum 100) and `memory = 1` (below 1 MiB) is not rejected anywhere: it
    reaches the sandbox, which is configured with the out-of-range timeout 50
    verbatim (the spy engine reports the timeout it was handed), and the call
    succeeds. -/
theorem c2_out_of_range_is_executed :
    handleCallTool parseOk engineSpyTimeout 0 0 "execute_js"
        (some ⟨some (.vStr "1 + 1"), some (.vNum 50), some (.vNum 1)⟩) =
      .ok { result := .vNum 50, console := [], executionTime := 0,
            memoryUsage := 0 } := by
  rfl

/-- C3 counterexample: the built configuration does not contain the
    effective memory bound — no function of the configuration can recover
    it, since `createSandbox` yields identical configurations for different
    memory arguments. -/
theorem c3_config_lacks_memory_bound :
    ¬ ∃ f : NodeVMConfig → Int, ∀ t m : Int, f (createSandbox t m) = m := by
  rintro ⟨f, hf⟩
  have h1 := hf 5000 1
  have h2 := hf 5000 2
  rw [show createSandbox 5000 1 = createSandbox 5000 2 from rfl] at h1
  omega

/-- C3 amended: the configuration contains the effective timeout and fixes
    the policy — console redirected, no require, no eval, no wasm, empty
    sandbox object (no implicit global exposure), no wrapper — but the
    memory argument is ignored: configurations for any two memory values
    coincide. -/
theorem c3_sandbox_config (t m m' : Int) :
    (createSandbox t m).timeout = t ∧
    (createSandbox t m).console = "redirect" ∧
    (createSandbox t m).require = false ∧
    (createSandbox t m).eval = false ∧
    (createSandbox t m).wasm = false ∧
    (createSandbox t m).sandbox = [] ∧
    (createSandbox t m).wrapper = "none" ∧
    createSandbox t m = createSandbox t m' :=
  ⟨rfl, rfl, rfl, rfl, rfl, rfl, rfl, rfl⟩

/-- C8 counterexample: the empty code string passes the handler's
    string-type guard and passes validation, and is executed to a success
    response instead of being rejected as a caller fault. -/
theorem c8_empty_code_is_executed :
    handleCallTool parseOk (engineConst .vNull) 0 0 "execute_js"
        (some ⟨some (.vStr ""), none, none⟩) =
      .ok { result := .vNull, console := [], executionTime := 0,
            memoryUsage := 0 } := by
  rfl

/-- C8 amended: the handler rejects an absent arguments object, an absent
    `code`, or a non-string `code` with `InvalidRequest`; the empty string,
    being a string, passes the guard, passes validation whenever the parser
    accepts it (it contains no forbidden pattern), and is executed. -/
theorem c8_code_guard (parse : Parser) (engine : Engine)
    (elapsedMs heapUsed : Int) (a : RawArgs) :
    (handleCallTool parse engine elapsedMs heapUsed "execute_js" none =
      .error ⟨.invalidRequest, codeRequiredMessage⟩) ∧
    (a.code = none →
      handleCallTool parse engine elapsedMs heapUsed "execute_js" (some a) =
        .error ⟨.invalidRequest, codeRequiredMessage⟩) ∧
    (∀ v, a.code = some v → (∀ s, v ≠ .vStr s) →
      handleCallTool parse engine elapsedMs heapUsed "execute_js" (some a) =
        .error ⟨.invalidRequest, codeRequiredMessage⟩) ∧
    (a.code = some (.vStr "") → parse "" = .ok () →
      validateCode parse "" = .ok () ∧
      handleCallTool parse engine elapsedMs heapUsed "execute_js" (some a) =
        executeCode parse engine elapsedMs heapUsed
          ⟨"", asNumber a.timeout, asNumber a.memory⟩) := by
  refine ⟨rfl, ?_, ?_, ?_⟩
  · intro h
    simp [handleCallTool, h]
  · intro v hv hns
    cases v with
    | vStr s => exact absurd rfl (hns s)
    | vNum n => simp [handleCallTool, hv]
    | vBool b => simp [handleCallTool, hv]
    | vNull => simp [handleCallTool, hv]
  · intro hc hp
    have hff : firstForbidden "" = none := rfl
    exact ⟨by simp [validateCode, hp, hff], by simp [handleCallTool, hc]⟩

/-- C8 amended witness: the empty code string is validated successfully and
    handed to execution with both bounds absent. -/
theorem c8_code_guard_witness :
    validateCode parseOk "" = .ok () ∧
    handleCallTool parseOk (engineConst .vNull) 0 0 "execute_js"
        (some ⟨some (.vStr ""), none, none⟩) =
      executeCode parseOk (engineConst .vNull) 0 0 ⟨"", none, none⟩ :=
  (c8_code_guard parseOk (engineConst .vNull) 0 0
      ⟨some (.vStr ""), none, none⟩).2.2.2 rfl rfl

end JSSandboxMCP
